import Mathlib

/-!
Verification of the Aria voice-assistant core against its specification.

The development shallowly embeds the audio codec (`utils/audioUtils`), the
local memory store (`utils/memoryDb`), the remote mirror
(`firebaseClient.ts`), and the session controller / playback scheduler
logic of the main component.  Audio samples and clock times are modelled
as rationals; machine 16-bit values as integers; byte buffers as lists of
naturals; fallible code returns `Except`.
-/

namespace Aria

/-! ## PCM codec (`utils/audioUtils`) -/

/-- JS `Math.round` on a nonnegative rational: `⌊q + 1/2⌋` (halves round up). -/
def jsRound (q : ℚ) : ℤ := ⌊q + 1/2⌋

/-- Truncation toward zero, as assignment of an in-range value into an
`Int16Array` slot performs. -/
def truncToZero (q : ℚ) : ℤ := if 0 ≤ q then ⌊q⌋ else -⌊-q⌋

/-- Indexing into a `Float32Array` cell that may never have been written:
unwritten cells read as `0`. -/
def getD0 (l : List ℚ) (i : ℕ) : ℚ := l.getD i 0

/-- `downsampleBuffer` from `utils/audioUtils`: identity when the rates match;
throws `"Upsampling is not supported"` when the input rate is below the
target; otherwise nearest-neighbor decimation — the output has
`Math.round(length / (inputRate/targetRate))` cells, cell `i` holding the
input sample at index `Math.round(i * ratio)` (left `0` by the boundary
check when that index is out of range). -/
def downsampleBuffer (buffer : List ℚ) (inputSampleRate targetSampleRate : ℕ) :
    Except String (List ℚ) :=
  if inputSampleRate = targetSampleRate then .ok buffer
  else if inputSampleRate < targetSampleRate then .error "Upsampling is not supported"
  else
    let sampleRateRatio : ℚ := (inputSampleRate : ℚ) / (targetSampleRate : ℚ)
    let newLength : ℕ := (jsRound ((buffer.length : ℚ) / sampleRateRatio)).toNat
    .ok ((List.range newLength).map (fun (i : ℕ) =>
      let originalIndex : ℕ := (jsRound ((i : ℚ) * sampleRateRatio)).toNat
      if originalIndex < buffer.length then getD0 buffer originalIndex else 0))

/-- One iteration of `float32To16BitPCM`'s quantization loop: clamp the sample
to `[-1, 1]`, then scale by `0x8000` when negative and `0x7FFF` otherwise. -/
def quantize16 (s : ℚ) : ℤ :=
  let c := max (-1) (min 1 s)
  if c < 0 then truncToZero (c * 32768) else truncToZero (c * 32767)

/-- Little-endian serialization of an `Int16Array`'s backing buffer
(`new Uint8Array(int16.buffer)`): each 16-bit sample contributes its low
byte then its high byte. -/
def int16ToBytesLE : List ℤ → List ℕ
  | [] => []
  | v :: vs =>
    let u : ℕ := (v % 65536).toNat
    u % 256 :: u / 256 :: int16ToBytesLE vs

/-- Reinterpretation of a byte buffer as a signed little-endian `Int16Array`
(`new Int16Array(data.buffer)`); a trailing odd byte is not part of any
16-bit element. -/
def bytesToInt16LE : List ℕ → List ℤ
  | b0 :: b1 :: rest =>
    let u : ℕ := b0 % 256 + 256 * (b1 % 256)
    (if u < 32768 then (u : ℤ) else (u : ℤ) - 65536) :: bytesToInt16LE rest
  | _ => []

/-- The wire blob produced by `float32To16BitPCM`.  `data` models the base64
payload by the byte sequence it encodes: `uint8ArrayToBase64` and
`base64ToUint8Array` are mutually inverse, so the transported bytes are
exactly these. -/
structure PCMBlob where
  data : List ℕ
  mimeRate : ℕ
deriving DecidableEq

/-- `float32To16BitPCM` from `utils/audioUtils`: downsample to the fixed
16 kHz target (propagating the upsampling failure), quantize each sample to
signed 16-bit, and serialize little-endian with the rate tag. -/
def float32To16BitPCM (float32Data : List ℚ) (inputSampleRate : ℕ) :
    Except String PCMBlob :=
  match downsampleBuffer float32Data inputSampleRate 16000 with
  | .error e => .error e
  | .ok processedData =>
      .ok ⟨int16ToBytesLE (processedData.map quantize16), 16000⟩

/-- A decoded audio buffer: one sample list per channel, plus a sample rate. -/
structure AudioBuffer where
  channels : List (List ℚ)
  sampleRate : ℕ

/-- `pcmToAudioBuffer` from `utils/audioUtils`: reinterpret the bytes as a
signed 16-bit little-endian array, split `frameCount = length / numChannels`
interleaved frames into channels, and convert to floats by dividing
by `32768`. -/
def pcmToAudioBuffer (data : List ℕ) (sampleRate numChannels : ℕ) : AudioBuffer :=
  let dataInt16 := bytesToInt16LE data
  let frameCount := dataInt16.length / numChannels
  { channels := (List.range numChannels).map (fun ch =>
      (List.range frameCount).map (fun i =>
        ((dataInt16.getD (i * numChannels + ch) 0 : ℚ)) / 32768)),
    sampleRate := sampleRate }

/-- Sample count of the first (mono) channel of a decoded blob. -/
def decodedSampleCount (b : PCMBlob) : ℕ :=
  ((pcmToAudioBuffer b.data 16000 1).channels.headD []).length

theorem int16ToBytesLE_length (xs : List ℤ) :
    (int16ToBytesLE xs).length = 2 * xs.length := by
  induction xs with
  | nil => rfl
  | cons v vs ih => simp [int16ToBytesLE, ih]; ring

theorem bytesToInt16LE_length (bs : List ℕ) :
    (bytesToInt16LE bs).length = bs.length / 2 := by
  match bs with
  | [] => rfl
  | [b] => simp [bytesToInt16LE]
  | b0 :: b1 :: rest =>
    simp [bytesToInt16LE, bytesToInt16LE_length rest]
    omega

theorem jsRound_ge_floor (q : ℚ) : ⌊q⌋ ≤ jsRound q := by
  unfold jsRound
  exact Int.floor_mono (by linarith)

theorem jsRound_le_floor_add_one (q : ℚ) : jsRound q ≤ ⌊q⌋ + 1 := by
  unfold jsRound
  have h : q + 1/2 ≤ q + (1 : ℤ) := by push_cast; linarith
  calc ⌊q + 1/2⌋ ≤ ⌊q + (1 : ℤ)⌋ := Int.floor_mono h
  _ = ⌊q⌋ + 1 := Int.floor_add_int q 1

theorem intFloor_natCast_div (a b : ℕ) (hb : 0 < b) :
    ⌊(a : ℚ) / (b : ℚ)⌋ = ((a / b : ℕ) : ℤ) := by
  have hbq : (0 : ℚ) < (b : ℚ) := by exact_mod_cast hb
  rw [Int.floor_eq_iff]
  constructor
  · rw [le_div_iff₀ hbq]
    exact_mod_cast Nat.div_mul_le_self a b
  · rw [div_lt_iff₀ hbq]
    have h : a < a / b * b + b := Nat.lt_div_mul_add hb
    have h2 : (a : ℚ) < ((a / b : ℕ) : ℚ) * b + b := by exact_mod_cast h
    have h3 : ((((a / b : ℕ) : ℤ) : ℚ)) = ((a / b : ℕ) : ℚ) := by norm_cast
    rw [h3, add_mul, one_mul]
    linarith

theorem decodedSampleCount_eq (b : PCMBlob) :
    decodedSampleCount b = (bytesToInt16LE b.data).length := by
  have h : List.range 1 = [0] := rfl
  simp [decodedSampleCount, pcmToAudioBuffer, h, Nat.div_one]

theorem downsampleBuffer_decimation (buffer : List ℚ) (r t : ℕ)
    (hne : r ≠ t) (hnlt : ¬ r < t) :
    downsampleBuffer buffer r t =
      .ok ((List.range
              ((jsRound ((buffer.length : ℚ) / ((r : ℚ) / (t : ℚ)))).toNat)).map
            (fun (i : ℕ) =>
              if (jsRound ((i : ℚ) * ((r : ℚ) / (t : ℚ)))).toNat < buffer.length
              then getD0 buffer ((jsRound ((i : ℚ) * ((r : ℚ) / (t : ℚ)))).toNat)
              else 0)) := by
  simp only [downsampleBuffer, if_neg hne, if_neg hnlt]

theorem downsampleBuffer_ok_length (buffer : List ℚ) (r t : ℕ)
    (ht : 0 < t) (hr : t ≤ r) :
    ∃ out, downsampleBuffer buffer r t = .ok out ∧
      buffer.length * t / r ≤ out.length ∧
      out.length ≤ buffer.length * t / r + 1 := by
  rcases eq_or_lt_of_le hr with heq | hlt
  · refine ⟨buffer, ?_, ?_, ?_⟩
    · simp [downsampleBuffer, heq]
    · rw [← heq, Nat.mul_div_cancel _ ht]
    · rw [← heq, Nat.mul_div_cancel _ ht]
      exact Nat.le_succ _
  · have hne : r ≠ t := (Nat.ne_of_lt hlt).symm
    have hnlt : ¬ r < t := Nat.not_lt.mpr hr
    have hrpos : 0 < r := Nat.lt_of_lt_of_le ht hr
    have hq : (buffer.length : ℚ) / ((r : ℚ) / (t : ℚ)) =
        ((buffer.length * t : ℕ) : ℚ) / (r : ℚ) := by
      rw [div_div_eq_mul_div]; push_cast; ring
    have hfl : ⌊(buffer.length : ℚ) / ((r : ℚ) / (t : ℚ))⌋ =
        ((buffer.length * t / r : ℕ) : ℤ) := by
      rw [hq]; exact intFloor_natCast_div _ _ hrpos
    have hlo : buffer.length * t / r ≤
        (jsRound ((buffer.length : ℚ) / ((r : ℚ) / (t : ℚ)))).toNat := by
      have h1 := jsRound_ge_floor ((buffer.length : ℚ) / ((r : ℚ) / (t : ℚ)))
      rw [hfl] at h1
      have h2 := Int.toNat_le_toNat h1
      rwa [Int.toNat_natCast] at h2
    have hhi : (jsRound ((buffer.length : ℚ) / ((r : ℚ) / (t : ℚ)))).toNat ≤
        buffer.length * t / r + 1 := by
      have h1 := jsRound_le_floor_add_one ((buffer.length : ℚ) / ((r : ℚ) / (t : ℚ)))
      rw [hfl] at h1
      have h1' : jsRound ((buffer.length : ℚ) / ((r : ℚ) / (t : ℚ))) ≤
          ((buffer.length * t / r + 1 : ℕ) : ℤ) := by push_cast; exact_mod_cast h1
      have h2 := Int.toNat_le_toNat h1'
      rwa [Int.toNat_natCast] at h2
    refine ⟨_, downsampleBuffer_decimation buffer r t hne hnlt, ?_, ?_⟩
    · rw [List.length_map, List.length_range]; exact hlo
    · rw [List.length_map, List.length_range]; exact hhi

/-- C7: for an input of length `L` at a rate `r ≥ 16000`, encoding with
`float32To16BitPCM` succeeds, and decoding the blob's bytes with
`pcmToAudioBuffer` as mono at the target rate yields a sample count within
one sample of `⌊L * 16000 / r⌋` (the Nat division below is that floor). -/
theorem rate_roundtrip_sample_bound (samples : List ℚ) (r : ℕ) (hr : 16000 ≤ r) :
    ∃ blob, float32To16BitPCM samples r = .ok blob ∧
      samples.length * 16000 / r ≤ decodedSampleCount blob ∧
      decodedSampleCount blob ≤ samples.length * 16000 / r + 1 := by
  obtain ⟨out, hok, h1, h2⟩ :=
    downsampleBuffer_ok_length samples r 16000 (by norm_num) hr
  have hc : decodedSampleCount ⟨int16ToBytesLE (out.map quantize16), 16000⟩
      = out.length := by
    rw [decodedSampleCount_eq]
    simp [bytesToInt16LE_length, int16ToBytesLE_length, Nat.mul_div_cancel_left]
  refine ⟨⟨int16ToBytesLE (out.map quantize16), 16000⟩, ?_, ?_, ?_⟩
  · simp [float32To16BitPCM, hok]
  · rw [hc]; exact h1
  · rw [hc]; exact h2

/-- Witness for C7 at a concrete input: three samples at 48 kHz... rate 24000. -/
theorem rate_roundtrip_sample_bound_witness :
    16000 ≤ 24000 ∧
      ∃ blob, float32To16BitPCM [0, 0, 0] 24000 = .ok blob ∧
        ([0, 0, 0] : List ℚ).length * 16000 / 24000 ≤ decodedSampleCount blob ∧
        decodedSampleCount blob ≤ ([0, 0, 0] : List ℚ).length * 16000 / 24000 + 1 :=
  ⟨by norm_num, rate_roundtrip_sample_bound [0, 0, 0] 24000 (by norm_num)⟩

/-- C8: for every input rate below the fixed 16 kHz target,
`float32To16BitPCM` fails with the upsampling error and returns no data. -/
theorem upsampling_rejected (samples : List ℚ) (r : ℕ) (hr : r < 16000) :
    float32To16BitPCM samples r = .error "Upsampling is not supported" := by
  have hne : r ≠ 16000 := Nat.ne_of_lt hr
  simp [float32To16BitPCM, downsampleBuffer, hne, hr]

/-- Witness for C8: encoding at 8 kHz fails with the upsampling error. -/
theorem upsampling_rejected_witness :
    8000 < 16000 ∧
      float32To16BitPCM [1/2] 8000 = .error "Upsampling is not supported" :=
  ⟨by norm_num, upsampling_rejected [1/2] 8000 (by norm_num)⟩

/-! ## Local memory store (`utils/memoryDb`) -/

/-- Speaker role of a conversation-history record. -/
inductive Role
  | user
  | model
deriving DecidableEq

/-- A record of the `conversation_history` object store:
`{role, text, timestamp}`, with `timestamp` as the store's keyPath. -/
structure ChatMessage where
  role : Role
  text : String
  timestamp : ℕ
deriving DecidableEq

/-- IndexedDB `put` into the `conversation_history` store: insert-or-replace
by the `timestamp` key; the store keeps its records in ascending key order. -/
def putHistory : List ChatMessage → ChatMessage → List ChatMessage
  | [], m => [m]
  | x :: xs, m =>
    if m.timestamp < x.timestamp then m :: x :: xs
    else if m.timestamp = x.timestamp then m :: xs
    else x :: putHistory xs m

/-- `addHistoryItem role text` run when `Date.now()` reads `now`:
`store.put({role, text, timestamp: Date.now()})` in a readwrite transaction. -/
def addHistoryItem (store : List ChatMessage) (role : Role) (text : String)
    (now : ℕ) : List ChatMessage :=
  putHistory store ⟨role, text, now⟩

/-- JS `array.slice(-limit)` on the sorted result array: for a positive
`limit` it keeps the last `min limit n` elements; for `limit = 0` the index
`-0` is `0`, so `slice(0)` returns the whole array. -/
def jsSliceNeg (l : List ChatMessage) (limit : ℕ) : List ChatMessage :=
  if limit = 0 then l else l.drop (l.length - limit)

/-- `getRecentHistory limit`: `getAll` the history store, sort ascending by
timestamp (the comparator `a.timestamp - b.timestamp`), then `slice(-limit)`. -/
def getRecentHistory (store : List ChatMessage) (limit : ℕ) : List ChatMessage :=
  jsSliceNeg (store.insertionSort (fun a b => a.timestamp ≤ b.timestamp)) limit

/-- Record keys (timestamps) of a history store, used to state the store's
unique-key invariant. -/
def historyKeys (store : List ChatMessage) : List ℕ :=
  store.map ChatMessage.timestamp

/-! ## Remote mirror (`firebaseClient.ts`) and profile store -/

/-- Field lookup in a JSON-object style document (profile object or Firestore
document), modelled as an association list of fields. -/
def docLookup : List (String × String) → String → Option String
  | [], _ => none
  | (k, v) :: rest, q => if q = k then some v else docLookup rest q

/-- Removal of the record stored under `key`, the replacement half of an
IndexedDB `put`. -/
def removeKey : List (String × String) → String → List (String × String)
  | [], _ => []
  | kv :: rest, key =>
    if kv.1 = key then removeKey rest key else kv :: removeKey rest key

/-- IndexedDB `put` into the `user_profile` store (keyPath `key`):
insert-or-replace the record for `key`.  Only the key-to-value mapping of the
store is observable through `getUserProfile`. -/
def putKey (profile : List (String × String)) (key value : String) :
    List (String × String) :=
  removeKey profile key ++ [(key, value)]

/-- `updateUserMemory key value` from `utils/memoryDb`: a readwrite
transaction that `put`s `{key, value}` into the profile store and resolves
only on `tx.oncomplete`, i.e. once the write is durable. -/
def updateUserMemory (profile : List (String × String)) (key value : String) :
    List (String × String) :=
  putKey profile key value

/-- The remote fields a merging write keeps: those whose key is not written
by the incoming data. -/
def mergeKeep : List (String × String) → List (String × String) →
    List (String × String)
  | [], _ => []
  | kv :: rest, data =>
    if (docLookup data kv.1).isNone then kv :: mergeKeep rest data
    else mergeKeep rest data

/-- `setDoc(docRef, data, { merge: true })` as issued by
`saveMemoryToFirebase`: fields of `data` overwrite the corresponding fields
of the remote document; fields absent from `data` are left untouched. -/
def setDocMerge (remoteDoc data : List (String × String)) :
    List (String × String) :=
  mergeKeep remoteDoc data ++ data

theorem docLookup_append (l₁ l₂ : List (String × String)) (q : String) :
    docLookup (l₁ ++ l₂) q =
      match docLookup l₁ q with
      | some v => some v
      | none => docLookup l₂ q := by
  induction l₁ with
  | nil => rfl
  | cons kv rest ih =>
    by_cases h : q = kv.1
    · simp [docLookup, h]
    · simp [docLookup, h, ih]

theorem docLookup_removeKey_ne (p : List (String × String)) (key q : String)
    (h : q ≠ key) :
    docLookup (removeKey p key) q = docLookup p q := by
  induction p with
  | nil => rfl
  | cons kv rest ih =>
    by_cases hk : kv.1 = key
    · have hq : q ≠ kv.1 := fun hc => h (hc.trans hk)
      simp [removeKey, hk, docLookup, hq, h, ih]
    · by_cases hq : q = kv.1
      · simp [removeKey, hk, docLookup, hq]
      · simp [removeKey, hk, docLookup, hq, ih]

theorem docLookup_removeKey_self (p : List (String × String)) (key : String) :
    docLookup (removeKey p key) key = none := by
  induction p with
  | nil => rfl
  | cons kv rest ih =>
    by_cases hk : kv.1 = key
    · simp [removeKey, hk, ih]
    · have hq : key ≠ kv.1 := fun hc => hk hc.symm
      simp [removeKey, hk, docLookup, hq, ih]

theorem docLookup_putKey_self (p : List (String × String)) (key value : String) :
    docLookup (putKey p key value) key = some value := by
  rw [putKey, docLookup_append, docLookup_removeKey_self]
  simp [docLookup]

theorem docLookup_mergeKeep_of_some (remoteDoc data : List (String × String))
    (q v : String) (h : docLookup data q = some v) :
    docLookup (mergeKeep remoteDoc data) q = none := by
  induction remoteDoc with
  | nil => rfl
  | cons kv rest ih =>
    by_cases hk : (docLookup data kv.1).isNone
    · have hq : q ≠ kv.1 := by
        intro hc
        rw [← hc, h] at hk
        simp at hk
      simp [mergeKeep, hk, docLookup, hq, ih]
    · simp [mergeKeep, hk, ih]

theorem docLookup_mergeKeep_of_none (remoteDoc data : List (String × String))
    (q : String) (h : docLookup data q = none) :
    docLookup (mergeKeep remoteDoc data) q = docLookup remoteDoc q := by
  induction remoteDoc with
  | nil => rfl
  | cons kv rest ih =>
    by_cases hq : q = kv.1
    · have hk : (docLookup data kv.1).isNone := by rw [← hq, h]; rfl
      simp [mergeKeep, hk, docLookup, hq]
    · by_cases hk : (docLookup data kv.1).isNone
      · simp [mergeKeep, hk, docLookup, hq, ih]
      · simp [mergeKeep, hk, docLookup, hq, ih]

/-- C2 counterexample: the tool-call push of the full profile `{b: 2}`
against a remote document `{a: 1}` leaves field `a` in the remote document
although `a` is absent from the pushed profile — `setDoc` with
`merge: true` performs a field-level merge, not a full replacement. -/
theorem remote_push_is_merge_not_replace :
    docLookup [("b", "2")] "a" = none ∧
    docLookup (setDocMerge [("a", "1")] [("b", "2")]) "a" = some "1" := by
  constructor <;> rfl

/-- C2 amended: on every update_user_memory mutation the entire resulting
profile is pushed (the tool-call handler pushes the full re-read profile),
and the remote applies the push as a per-field merge: a
field of the pushed profile always wins, while a remote field absent from
the pushed profile keeps its previous value — the remote document equals
the pushed profile only on the pushed keys. -/
theorem remote_merge_lookup (remoteDoc data : List (String × String))
    (q : String) :
    docLookup (setDocMerge remoteDoc data) q =
      match docLookup data q with
      | some v => some v
      | none => docLookup remoteDoc q := by
  rw [setDocMerge, docLookup_append]
  cases hd : docLookup data q with
  | some v => rw [docLookup_mergeKeep_of_some remoteDoc data q v hd]
  | none =>
    rw [docLookup_mergeKeep_of_none remoteDoc data q hd]
    cases docLookup remoteDoc q <;> simp [hd]

/-- C9 counterexample: with one stored entry, `getRecentHistory 0` returns
the whole history instead of the last zero entries, because `slice(-0)` is
`slice(0)`. -/
theorem recent_history_zero_limit :
    getRecentHistory [⟨Role.user, "a", 1⟩] 0 = [⟨Role.user, "a", 1⟩] ∧
    getRecentHistory [⟨Role.user, "a", 1⟩] 0 ≠ [] := by
  constructor <;> decide

/-- C9 amended: for every history store (sorted by its unique timestamp key,
as the IndexedDB store keeps it) and every limit ≥ 1, `getRecentHistory`
returns exactly the last `min limit n` stored entries — the suffix of the
store — in ascending timestamp order. -/
theorem recent_history_window (store : List ChatMessage) (limit : ℕ)
    (hsort : store.Pairwise (fun a b => a.timestamp < b.timestamp))
    (hl : 1 ≤ limit) :
    getRecentHistory store limit = store.drop (store.length - limit) ∧
    (getRecentHistory store limit).length = min limit store.length ∧
    (getRecentHistory store limit).Pairwise
      (fun a b => a.timestamp < b.timestamp) := by
  have hsorted : store.Sorted (fun a b => a.timestamp ≤ b.timestamp) :=
    hsort.imp (fun h => le_of_lt h)
  have heq : store.insertionSort (fun a b => a.timestamp ≤ b.timestamp) = store :=
    hsorted.insertionSort_eq
  have hne : limit ≠ 0 := Nat.one_le_iff_ne_zero.mp hl
  refine ⟨?_, ?_, ?_⟩
  · rw [getRecentHistory, heq, jsSliceNeg, if_neg hne]
  · rw [getRecentHistory, heq, jsSliceNeg, if_neg hne, List.length_drop]
    omega
  · rw [getRecentHistory, heq, jsSliceNeg, if_neg hne]
    exact hsort.sublist (List.drop_sublist _ _)

/-- Witness for C9's amended window property on a two-entry store with limit 1. -/
theorem recent_history_window_witness :
    getRecentHistory [⟨Role.user, "a", 1⟩, ⟨Role.model, "b", 2⟩] 1 =
        ([⟨Role.user, "a", 1⟩, ⟨Role.model, "b", 2⟩] : List ChatMessage).drop
          (([⟨Role.user, "a", 1⟩, ⟨Role.model, "b", 2⟩] : List ChatMessage).length - 1) ∧
    (getRecentHistory [⟨Role.user, "a", 1⟩, ⟨Role.model, "b", 2⟩] 1).length =
        min 1 ([⟨Role.user, "a", 1⟩, ⟨Role.model, "b", 2⟩] : List ChatMessage).length ∧
    (getRecentHistory [⟨Role.user, "a", 1⟩, ⟨Role.model, "b", 2⟩] 1).Pairwise
      (fun a b => a.timestamp < b.timestamp) :=
  recent_history_window [⟨Role.user, "a", 1⟩, ⟨Role.model, "b", 2⟩] 1
    (by decide) (by decide)

theorem putHistory_preserves (store : List ChatMessage) (m : ChatMessage)
    (h : m.timestamp ∉ historyKeys store) :
    (∀ e ∈ store, e ∈ putHistory store m) ∧
    (putHistory store m).length = store.length + 1 := by
  induction store with
  | nil => exact ⟨fun e he => absurd he (List.not_mem_nil e), rfl⟩
  | cons x xs ih =>
    have hx : m.timestamp ≠ x.timestamp := by
      intro hc
      exact h (by simp [historyKeys, hc])
    have hxs : m.timestamp ∉ historyKeys xs := by
      intro hc
      exact h (by simp [historyKeys]; right; simpa [historyKeys] using hc)
    obtain ⟨ihm, ihl⟩ := ih hxs
    by_cases hlt : m.timestamp < x.timestamp
    · refine ⟨?_, ?_⟩
      · intro e he
        rw [putHistory, if_pos hlt]
        exact List.mem_cons_of_mem _ he
      · rw [putHistory, if_pos hlt]
        rfl
    · refine ⟨?_, ?_⟩
      · intro e he
        rw [putHistory, if_neg hlt, if_neg hx]
        rcases List.mem_cons.mp he with rfl | hmem
        · exact List.mem_cons_self _ _
        · exact List.mem_cons_of_mem _ (ihm e hmem)
      · rw [putHistory, if_neg hlt, if_neg hx]
        simp [ihl]

/-- C10 counterexample: two appends observing the same `Date.now()`
millisecond — the second `put` on the `timestamp` keyPath replaces the first
entry, so the earlier record is gone. -/
theorem history_put_replaces_on_collision :
    addHistoryItem (addHistoryItem [] Role.user "a" 5) Role.model "b" 5 =
        [⟨Role.model, "b", 5⟩] ∧
    (⟨Role.user, "a", 5⟩ : ChatMessage) ∉
      addHistoryItem (addHistoryItem [] Role.user "a" 5) Role.model "b" 5 := by
  constructor <;> decide

/-- C10 amended: appending an entry whose timestamp is not already a key of
the store is append-only — every previously stored entry is still present
and the record count grows by one; only a `Date.now()` collision with an
existing key replaces the colliding record. -/
theorem history_append_preserves (store : List ChatMessage) (role : Role)
    (text : String) (now : ℕ) (h : now ∉ historyKeys store) :
    (∀ e ∈ store, e ∈ addHistoryItem store role text now) ∧
    (addHistoryItem store role text now).length = store.length + 1 :=
  putHistory_preserves store ⟨role, text, now⟩ h

/-- Witness for C10's amended append-only property at a fresh timestamp. -/
theorem history_append_preserves_witness :
    (2 ∉ historyKeys [⟨Role.user, "a", 1⟩]) ∧
    ((∀ e ∈ [(⟨Role.user, "a", 1⟩ : ChatMessage)],
        e ∈ addHistoryItem [⟨Role.user, "a", 1⟩] Role.model "b" 2) ∧
      (addHistoryItem [⟨Role.user, "a", 1⟩] Role.model "b" 2).length =
        ([⟨Role.user, "a", 1⟩] : List ChatMessage).length + 1) :=
  ⟨by decide,
    history_append_preserves [⟨Role.user, "a", 1⟩] Role.model "b" 2 (by decide)⟩

/-! ## Session controller and playback scheduler (main component) -/

/-- Connection phases of the session controller (`ConnectionState` in
`types.ts`). -/
inductive ConnectionState
  | DISCONNECTED
  | CONNECTING
  | CONNECTED
  | RECONNECTING
  | ERROR
deriving DecidableEq

/-- A protocol- or store-level action issued by the controller, recorded in
issue order to reason about what is sent and when. -/
inductive Action
  | sendRealtimeInput (media : PCMBlob)
  | sendToolResponse (ids : List String)
  | localWrite (key value : String)
  | remotePush (profile : List (String × String))
  | remotePull
  | openSession
  | stopSource (id : ℕ)
deriving DecidableEq

/-- Playback scheduler state: the `nextStartTimeRef` cursor on the output
clock and the `activeSourcesRef` set of scheduled-but-unfinished sources
(identified here by numbers). -/
structure Scheduler where
  nextStartTime : ℚ
  activeSources : List ℕ
deriving DecidableEq

/-- Scheduling of one decoded audio fragment (the inline-data branch of
`onmessage`): if the cursor fell behind the current clock `now`, catch it up
to `now`; start the source at the cursor, add it to the active set, and
advance the cursor by the fragment's duration.  Returns the new state and
the scheduled start time. -/
def enqueueFragment (s : Scheduler) (now : ℚ) (id : ℕ) (duration : ℚ) :
    Scheduler × ℚ :=
  let start := if s.nextStartTime < now then now else s.nextStartTime
  (⟨start + duration, id :: s.activeSources⟩, start)

/-- Natural completion of a source (`source.onended`): the source removes
itself from the active set. -/
def sourceEnded (s : Scheduler) (id : ℕ) : Scheduler :=
  ⟨s.nextStartTime, s.activeSources.erase id⟩

/-- The `serverContent.interrupted` branch of `onmessage`: stop every active
source, clear the set, reset the cursor to zero.  Returns the new state and
the stop actions issued. -/
def interruptPlayback (s : Scheduler) : Scheduler × List Action :=
  (⟨0, []⟩, s.activeSources.map Action.stopSource)

/-- A run of fragment arrivals, each a pair of the clock reading at arrival
and the fragment duration, folded through `enqueueFragment` with sources
numbered from `n`.  Returns the final state and the scheduled start times. -/
def runEnqueues : Scheduler → ℕ → List (ℚ × ℚ) → Scheduler × List ℚ
  | s, _, [] => (s, [])
  | s, n, (now, d) :: rest =>
    let step := enqueueFragment s now n d
    let tail := runEnqueues step.1 (n + 1) rest
    (tail.1, step.2 :: tail.2)

/-- The clock stays at or behind the cursor throughout a run: at each
arrival the clock reading is at most the cursor value at that point. -/
def neverBehind : ℚ → List (ℚ × ℚ) → Bool
  | _, [] => true
  | c, (now, d) :: rest => if now ≤ c then neverBehind (c + d) rest else false

/-- The gapless schedule: start times are the prefix sums of the durations,
offset from the initial cursor value. -/
def scheduleFrom (t : ℚ) : List ℚ → List ℚ
  | [] => []
  | d :: rest => t :: scheduleFrom (t + d) rest

/-- C5: one enqueue always advances the cursor to start-plus-duration, and
when the cursor never falls behind the clock during a run the scheduled
starts are exactly the prefix sums of the durations offset from the first
start (the initial cursor) — gapless, non-overlapping, in enqueue order —
with the final cursor the initial one plus the total duration. -/
theorem playback_gapless_schedule (s : Scheduler) (n : ℕ)
    (frags : List (ℚ × ℚ))
    (h : neverBehind s.nextStartTime frags = true) :
    (∀ s0 now id d, (enqueueFragment s0 now id d).1.nextStartTime =
        (enqueueFragment s0 now id d).2 + d) ∧
    (runEnqueues s n frags).2 =
      scheduleFrom s.nextStartTime (frags.map Prod.snd) ∧
    (runEnqueues s n frags).1.nextStartTime =
      s.nextStartTime + (frags.map Prod.snd).sum := by
  refine ⟨fun s0 now id d => rfl, ?_⟩
  induction frags generalizing s n with
  | nil => simp [runEnqueues, scheduleFrom]
  | cons head rest ih =>
    obtain ⟨now, d⟩ := head
    rw [neverBehind] at h
    by_cases hc : now ≤ s.nextStartTime
    · rw [if_pos hc] at h
      have hstart : (enqueueFragment s now n d).2 = s.nextStartTime := by
        simp [enqueueFragment, not_lt.mpr hc]
      have hstate : (enqueueFragment s now n d).1.nextStartTime =
          s.nextStartTime + d := by
        simp [enqueueFragment, not_lt.mpr hc]
      obtain ⟨ih1, ih2⟩ := ih (enqueueFragment s now n d).1 (n + 1)
        (by rw [hstate]; exact h)
      constructor
      · rw [runEnqueues]
        simp only [List.map_cons, scheduleFrom]
        rw [hstart, ih1, hstate]
      · rw [runEnqueues]
        simp only [List.map_cons, List.sum_cons]
        rw [ih2, hstate]
        ring
    · rw [if_neg hc] at h
      exact absurd h (by simp)

/-- Witness for C5 on a concrete two-fragment run. -/
theorem playback_gapless_schedule_witness :
    neverBehind (⟨0, []⟩ : Scheduler).nextStartTime [(0, 1), (1/2, 2)] = true ∧
    ((∀ s0 now id d, (enqueueFragment s0 now id d).1.nextStartTime =
        (enqueueFragment s0 now id d).2 + d) ∧
      (runEnqueues ⟨0, []⟩ 0 [(0, 1), (1/2, 2)]).2 =
        scheduleFrom (⟨0, []⟩ : Scheduler).nextStartTime
          ([(0, 1), ((1:ℚ)/2, (2:ℚ))].map Prod.snd) ∧
      (runEnqueues ⟨0, []⟩ 0 [(0, 1), (1/2, 2)]).1.nextStartTime =
        (⟨0, []⟩ : Scheduler).nextStartTime +
          (([(0, 1), ((1:ℚ)/2, (2:ℚ))].map Prod.snd)).sum) :=
  ⟨by norm_num [neverBehind],
    playback_gapless_schedule ⟨0, []⟩ 0 [(0, 1), (1/2, 2)]
      (by norm_num [neverBehind])⟩

/-- C6: handling an interruption signal stops every active source, empties
the active set, and resets the cursor to zero, so that the next enqueue at
any clock reading `now ≥ 0` starts at `now` rather than at the old cursor. -/
theorem interrupt_clears_playback (s : Scheduler) (now d : ℚ) (id : ℕ)
    (hnow : 0 ≤ now) :
    (interruptPlayback s).1.activeSources = [] ∧
    (interruptPlayback s).1.nextStartTime = 0 ∧
    (interruptPlayback s).2 = s.activeSources.map Action.stopSource ∧
    (enqueueFragment (interruptPlayback s).1 now id d).2 = now := by
  refine ⟨rfl, rfl, rfl, ?_⟩
  rcases lt_or_eq_of_le hnow with hpos | hzero
  · simp [interruptPlayback, enqueueFragment, hpos]
  · simp [interruptPlayback, enqueueFragment, ← hzero]

/-- Witness for C6 on a scheduler with one active source and a stale cursor. -/
theorem interrupt_clears_playback_witness :
    (0 : ℚ) ≤ 2 ∧
    ((interruptPlayback ⟨5, [3]⟩).1.activeSources = [] ∧
      (interruptPlayback ⟨5, [3]⟩).1.nextStartTime = 0 ∧
      (interruptPlayback ⟨5, [3]⟩).2 =
        (⟨5, [3]⟩ : Scheduler).activeSources.map Action.stopSource ∧
      (enqueueFragment (interruptPlayback ⟨5, [3]⟩).1 2 7 1).2 = 2) :=
  ⟨by norm_num, interrupt_clears_playback ⟨5, [3]⟩ 2 1 7 (by norm_num)⟩

/-- Session controller state: the connection phase together with the ref
cells the connect/close logic reads and writes — the intentional-close flag,
whether the capture graph is wired to a live worklet `onmessage` handler,
whether the session handle is still present, and the pending retry timer
with its delay in milliseconds and the `isReconnect` argument of the
scheduled `connect` call. -/
structure Controller where
  connectionState : ConnectionState
  isIntentionalClose : Bool
  workletWired : Bool
  sessionPresent : Bool
  retryTimer : Option (ℕ × Bool)
deriving DecidableEq

/-- `fullCleanup`: cancels any pending retry timer and tears down the
capture graph (stream, worklet, source nodes, audio contexts); run only on
the intentional-close paths. -/
def fullCleanup (c : Controller) : Controller :=
  { c with retryTimer := none, workletWired := false, sessionPresent := false }

/-- The `onopen` session callback: mark the controller CONNECTED, clear the
intentional-close flag, and (re)wire the capture graph with a fresh chunk
handler capturing the new session promise. -/
def onopenHandler (c : Controller) : Controller :=
  { c with connectionState := ConnectionState.CONNECTED,
           isIntentionalClose := false,
           workletWired := true,
           sessionPresent := true }

/-- The `onclose` session callback: on a non-intentional close the
controller moves to RECONNECTING, closes the old session handle, and
schedules `connect(true)` after a fixed 2000 ms; the capture graph is left
wired.  On an intentional close it runs `fullCleanup` and moves to
DISCONNECTED. -/
def oncloseHandler (c : Controller) : Controller :=
  if !c.isIntentionalClose then
    { c with connectionState := ConnectionState.RECONNECTING,
             sessionPresent := false,
             retryTimer := some (2000, true) }
  else
    { fullCleanup c with connectionState := ConnectionState.DISCONNECTED }

/-- The synchronous happy path of `connect isReconnect` up to issuing the
session open, given whether an API key is configured: without a key the
controller goes straight to ERROR; otherwise it enters RECONNECTING or
CONNECTING, performs the Firebase memory pull only when `!isReconnect`
(the `loadMemoryFromFirebase` plus per-key `updateUserMemory` block), and
then opens the session.  The returned list records the effects in issue
order. -/
def connect (c : Controller) (isReconnect hasApiKey : Bool) :
    Controller × List Action :=
  if !hasApiKey then
    ({ c with connectionState := ConnectionState.ERROR }, [])
  else
    ({ c with connectionState :=
        if isReconnect then ConnectionState.RECONNECTING
        else ConnectionState.CONNECTING },
     (if !isReconnect then [Action.remotePull] else []) ++ [Action.openSession])

/-- Firing of the pending reconnect timer: the scheduled `connect` call with
the `isReconnect` argument recorded when the timer was set. -/
def fireRetryTimer (c : Controller) (hasApiKey : Bool) :
    Controller × List Action :=
  match c.retryTimer with
  | none => (c, [])
  | some (_, isReconnect) =>
      connect { c with retryTimer := none } isReconnect hasApiKey

/-- The worklet `port.onmessage` chunk handler: encode the captured chunk at
the input context's sample rate and issue `sendRealtimeInput` on the session
promise captured when the handler was wired, swallowing failures.  The
handler consults no connection state; it runs exactly when the capture graph
is wired, and an encoding failure aborts the handler without a send. -/
def captureChunk (c : Controller) (chunk : List ℚ) (inputSampleRate : ℕ) :
    Controller × List Action :=
  if c.workletWired then
    match float32To16BitPCM chunk inputSampleRate with
    | .ok blob => (c, [Action.sendRealtimeInput blob])
    | .error _ => (c, [])
  else (c, [])

/-- A controller as it stands while CONNECTED with the capture graph wired,
used as the concrete start state of the close/reconnect scenarios. -/
def connectedCtl : Controller :=
  { connectionState := ConnectionState.CONNECTED,
    isIntentionalClose := false,
    workletWired := true,
    sessionPresent := true,
    retryTimer := none }

/-- C1 counterexample: after an unexpected close from CONNECTED the
controller is in RECONNECTING, yet a chunk captured then still triggers a
`sendRealtimeInput` on the old session — the chunk is not dropped, because
the handler never checks the connection state. -/
theorem chunk_sent_while_reconnecting :
    (oncloseHandler connectedCtl).connectionState = ConnectionState.RECONNECTING ∧
    (oncloseHandler connectedCtl).connectionState ≠ ConnectionState.CONNECTED ∧
    (captureChunk (oncloseHandler connectedCtl) [] 16000).2 =
      [Action.sendRealtimeInput ⟨[], 16000⟩] := by
  refine ⟨rfl, by decide, rfl⟩

/-- C1 amended: a captured chunk's encoded send is issued to the session
captured at wiring time whenever the capture graph is wired, regardless of
the controller's connection state, and the controller state is unchanged —
nothing is queued; in particular chunks produced during RECONNECTING after
an unexpected close are still issued to the old, closed session (failures
swallowed) rather than dropped. -/
theorem capture_send_ignores_state (c : Controller) (chunk : List ℚ)
    (r : ℕ) (blob : PCMBlob)
    (hw : c.workletWired = true)
    (henc : float32To16BitPCM chunk r = .ok blob) :
    captureChunk c chunk r = (c, [Action.sendRealtimeInput blob]) := by
  rw [captureChunk, if_pos hw, henc]

/-- Witness for C1's amended send behaviour, in the RECONNECTING state
reached from an unexpected close. -/
theorem capture_send_ignores_state_witness :
    (oncloseHandler connectedCtl).workletWired = true ∧
    float32To16BitPCM [] 16000 = .ok ⟨[], 16000⟩ ∧
    captureChunk (oncloseHandler connectedCtl) [] 16000 =
      (oncloseHandler connectedCtl, [Action.sendRealtimeInput ⟨[], 16000⟩]) :=
  ⟨rfl, rfl,
    capture_send_ignores_state (oncloseHandler connectedCtl) [] 16000
      ⟨[], 16000⟩ rfl rfl⟩

/-- C3: from CONNECTED with the close not intentional, the `onclose`
callback moves the controller to RECONNECTING, drops the old session
handle, and schedules a reconnect (`connect(true)`) after the fixed 2000 ms
delay; firing that timer issues the session open without a remote memory
pull, while a first (non-reconnect) connect does issue the remote pull. -/
theorem reconnect_after_unexpected_close (c : Controller)
    (hconn : c.connectionState = ConnectionState.CONNECTED)
    (hint : c.isIntentionalClose = false) :
    (oncloseHandler c).connectionState = ConnectionState.RECONNECTING ∧
    (oncloseHandler c).sessionPresent = false ∧
    (oncloseHandler c).retryTimer = some (2000, true) ∧
    Action.remotePull ∉ (fireRetryTimer (oncloseHandler c) true).2 ∧
    Action.openSession ∈ (fireRetryTimer (oncloseHandler c) true).2 ∧
    Action.remotePull ∈ (connect c false true).2 := by
  have hclose : oncloseHandler c =
      { c with connectionState := ConnectionState.RECONNECTING,
               sessionPresent := false,
               retryTimer := some (2000, true) } := by
    rw [oncloseHandler, hint]
    rfl
  refine ⟨by rw [hclose], by rw [hclose], by rw [hclose], ?_, ?_, ?_⟩
  · rw [hclose]
    simp [fireRetryTimer, connect]
  · rw [hclose]
    simp [fireRetryTimer, connect]
  · simp [connect]

/-- Witness for C3 from the concrete connected controller. -/
theorem reconnect_after_unexpected_close_witness :
    connectedCtl.connectionState = ConnectionState.CONNECTED ∧
    connectedCtl.isIntentionalClose = false ∧
    ((oncloseHandler connectedCtl).connectionState =
        ConnectionState.RECONNECTING ∧
      (oncloseHandler connectedCtl).sessionPresent = false ∧
      (oncloseHandler connectedCtl).retryTimer = some (2000, true) ∧
      Action.remotePull ∉ (fireRetryTimer (oncloseHandler connectedCtl) true).2 ∧
      Action.openSession ∈ (fireRetryTimer (oncloseHandler connectedCtl) true).2 ∧
      Action.remotePull ∈ (connect connectedCtl false true).2) :=
  ⟨rfl, rfl, reconnect_after_unexpected_close connectedCtl rfl rfl⟩

/-- One entry of `message.toolCall.functionCalls`, its `args` destructured
into the key and value the handler reads. -/
structure FunctionCall where
  id : String
  name : String
  key : String
  value : String
deriving DecidableEq

/-- The loop body of the `toolCall` branch of `onmessage`: for every call
named `update_user_memory`, the awaited durable local write, the full
re-read of the profile, and the fire-and-forget remote push of that re-read
profile, accumulating the call's response id; calls with any other name are
skipped.  Returns the final profile, the issued actions in order, and the
accumulated response ids. -/
def runToolCalls : List (String × String) → List FunctionCall →
    List (String × String) × List Action × List String
  | p, [] => (p, [], [])
  | p, fc :: rest =>
    if fc.name = "update_user_memory" then
      let p2 := updateUserMemory p fc.key fc.value
      let tail := runToolCalls p2 rest
      (tail.1,
       Action.localWrite fc.key fc.value :: Action.remotePush p2 :: tail.2.1,
       fc.id :: tail.2.2)
    else runToolCalls p rest

/-- The whole `toolCall` branch: run the calls, then issue the single
`sendToolResponse` acknowledgement exactly when some response was produced.
The remote pushes are started inside the loop and never awaited, so no
remote completion is sequenced before the acknowledgement. -/
def handleToolCall (p : List (String × String)) (calls : List FunctionCall) :
    List (String × String) × List Action :=
  let run := runToolCalls p calls
  (run.1,
   run.2.1 ++ (if run.2.2.isEmpty then [] else [Action.sendToolResponse run.2.2]))

/-- C4: an inbound `update_user_memory` tool call for key `k` and value `v`
issues, in order, the durable local write, the start of the remote push of
the full re-read profile, and only then the acknowledgement — and at the
moment the acknowledgement is issued the profile already reads back `v`
under `k`.  The remote push has merely been started, never awaited, before
the acknowledgement. -/
theorem ack_after_durable_write (p : List (String × String)) (i k v : String) :
    (handleToolCall p [⟨i, "update_user_memory", k, v⟩]).2 =
      [Action.localWrite k v,
       Action.remotePush (updateUserMemory p k v),
       Action.sendToolResponse [i]] ∧
    docLookup (handleToolCall p [⟨i, "update_user_memory", k, v⟩]).1 k =
      some v := by
  constructor
  · rfl
  · exact docLookup_putKey_self p k v

end Aria
